import Mathlib

/-!
Obsidian web scraper: the content pipeline of `bin/scraper.js`.

A shallow embedding of the functions of `bin/scraper.js` and the properties
of them that the specification states.

JavaScript strings are modelled by Lean strings, handled as lists of
characters (`String.data`).  The regular expressions of the source carry no
`u` flag and only mention characters of the Basic Multilingual Plane, so that
on well-formed strings working on code points and working on UTF-16 code
units agree.  Lone surrogates are outside the model.
-/

namespace ObsidianScraper

/-! ## JavaScript string primitives -/

/-- Characters matched by `\s` in a JavaScript regular expression, which are
also the characters `String.prototype.trim` strips: ECMAScript `WhiteSpace`
(TAB, VT, FF, SP, NBSP, ZWNBSP and the category `Zs`) and `LineTerminator`
(LF, CR, LS, PS). -/
def isJsWhitespace (c : Char) : Bool :=
  let n := c.toNat
  n == 0x09 || n == 0x0A || n == 0x0B || n == 0x0C || n == 0x0D || n == 0x20 ||
  n == 0xA0 || n == 0x1680 || (0x2000 ≤ n && n ≤ 0x200A) || n == 0x2028 ||
  n == 0x2029 || n == 0x202F || n == 0x205F || n == 0x3000 || n == 0xFEFF

/-- The character class of line 48 of `scraper.js`: slash, backslash, question
mark, percent, asterisk, colon, vertical bar, double quote, less-than and
greater-than. -/
def isInvalidFilenameChar (c : Char) : Bool :=
  let n := c.toNat
  n == 47 || n == 92 || n == 63 || n == 37 || n == 42 || n == 58 || n == 124 ||
  n == 34 || n == 60 || n == 62

/-- Tests for the hyphen, the character that the third regular expression of
`createFilename` (line 50) repeats. -/
def isHyphen (c : Char) : Bool := c == '-'

/-- `s.replace(/[class]/g, r)` for a replacement `r` without `$`: every
character of the class is replaced by `r`. -/
def replaceEach (p : Char → Bool) (r : List Char) : List Char → List Char
  | [] => []
  | c :: cs => if p c then r ++ replaceEach p r cs else c :: replaceEach p r cs

/-- `s.replace(/[class]+/g, r)` for a replacement `r` without `$`: every
maximal run of characters of the class is replaced by one `r`.  The flag
`inRun` says that the preceding character belongs to the match being
consumed (the quantifier `+` is greedy). -/
def replaceRunsAux (p : Char → Bool) (r : List Char) : Bool → List Char → List Char
  | _, [] => []
  | inRun, c :: cs =>
    if p c then
      if inRun then replaceRunsAux p r true cs else r ++ replaceRunsAux p r true cs
    else c :: replaceRunsAux p r false cs

/-- `s.replace(/[class]+/g, r)`, scanning from the start of the string. -/
def replaceRuns (p : Char → Bool) (r : List Char) (s : List Char) : List Char :=
  replaceRunsAux p r false s

/-- `String.prototype.trim`: strips white space and line terminators from both
ends. -/
def jsTrim (s : List Char) : List Char :=
  (s.dropWhile isJsWhitespace).rdropWhile isJsWhitespace

/-! ## `createFilename` -/

/-- The constant `sanitized` of `createFilename` (lines 47-51). -/
def sanitized (title : List Char) : List Char :=
  jsTrim
    (replaceRuns isHyphen ['-']
      (replaceRuns isJsWhitespace ['-']
        (replaceEach isInvalidFilenameChar ['-'] title)))

/-- The constant `finalName` of `createFilename` (line 54). -/
def finalName (title : List Char) : List Char :=
  if (sanitized title).length > 0 then sanitized title else "untitled".data

/-- `createFilename(title)` (lines 46-57). -/
def createFilename (title : String) : String :=
  ⟨finalName title.data ++ ".md".data⟩

/-! ## `applyTemplate` -/

/-- The abstract operation `GetSubstitution` of ECMAScript for a regular
expression without capture groups, which `String.prototype.replace` applies
to a replacement given as a string: `$$` stands for a dollar sign, `$&` for
the matched text, dollar-backtick for the text before the match and
dollar-apostrophe for the text after it; every other character, a `$`
before anything else included, stands for itself. -/
def getSubstitution (matched before after : List Char) : List Char → List Char
  | [] => []
  | [c] => [c]
  | c :: d :: rest =>
    if c = '$' then
      if d = '$' then '$' :: getSubstitution matched before after rest
      else if d = '&' then matched ++ getSubstitution matched before after rest
      else if d = Char.ofNat 96 then before ++ getSubstitution matched before after rest
      else if d = Char.ofNat 39 then after ++ getSubstitution matched before after rest
      else c :: getSubstitution matched before after (d :: rest)
    else c :: getSubstitution matched before after (d :: rest)

/-- `s.replace(/pat/g, repl)` for a pattern `pat` that is a non-empty literal
text, as are the six patterns of `applyTemplate`: the matches are the
leftmost occurrences that do not overlap, and each is replaced by the
expansion of `repl`.  `before` is the part of the string already scanned and
`skip` the number of characters still to pass over after a match. -/
def replacePattern (pat repl : List Char) : List Char → Nat → List Char → List Char
  | _, _, [] => []
  | before, skip + 1, c :: cs => replacePattern pat repl (before ++ [c]) skip cs
  | before, 0, c :: cs =>
    if pat.isPrefixOf (c :: cs) then
      getSubstitution pat before ((c :: cs).drop pat.length) repl ++
        replacePattern pat repl (before ++ [c]) (pat.length - 1) cs
    else c :: replacePattern pat repl (before ++ [c]) 0 cs

/-- `s.replace(/pat/g, repl)` on strings. -/
def jsReplace (pat repl s : String) : String :=
  ⟨replacePattern pat.data repl.data [] 0 s.data⟩

/-- Truthiness of a JavaScript value that is a string or `null`/`undefined`:
only a non-empty string is truthy. -/
def truthy : Option String → Bool
  | some s => s != ""
  | none => false

/-- `value || fallback` for a value that is a string or `null`. -/
def orString (value : Option String) (fallback : String) : String :=
  match value with
  | some s => if s != "" then s else fallback
  | none => fallback

/-- The metadata object built by `extractMetadata` (lines 64-70).  `author`
and `description` are `none` when they hold `null`, which `getAttribute`
returns for a `meta` element without `content`. -/
structure Metadata where
  url : String
  title : String
  author : Option String
  date : String
  description : Option String
  deriving DecidableEq, Repr

/-- Exceptions that the functions of `scraper.js` let escape. -/
inductive JsError where
  /-- `ReferenceError: name is not defined`. -/
  | referenceError (name : String)
  /-- `TypeError`, thrown by `path.join` for an argument that is not a string. -/
  | typeError (what : String)
  /-- The system error, named by its code (`EACCES`, `ENAMETOOLONG`, `ENOTDIR`,
  ...), that `fs.mkdirSync` or `fs.writeFileSync` throws. -/
  | systemError (code : String)
  deriving DecidableEq, Repr

deriving instance DecidableEq for Except

/-- What `extractMetadata` reads from the parsed page.  For each of the three
`querySelector` calls the field is `none` when no element matches, and
otherwise holds what the source takes from the `content` attribute of the
first match: the attribute itself (`none` for `null`) for author and
description, and for the date the text `publishDate.format('YYYY-MM-DD')` when
`dayjs` finds the attribute a valid date (`none` otherwise). -/
structure Document where
  title : String
  authorMeta : Option (Option String)
  dateMeta : Option (Option String)
  descMeta : Option (Option String)
  deriving DecidableEq, Repr

/-- The object returned by `Readability.parse()`, as far as `scrapeUrl` reads
it. -/
structure Article where
  title : Option String
  content : String
  byline : Option String
  deriving DecidableEq, Repr

/-- A fetched and parsed page: its document and the outcome of
`reader.parse()`, `none` for `null`. -/
structure Page where
  document : Document
  article : Option Article
  deriving DecidableEq, Repr

/-- What the program reads from its surroundings.  `readFileSync path` is
`none` when `fs.readFileSync(path, 'utf8')` throws; `pathJoin` is
`path.join` of Node; `dirname` is `__dirname`; `fetchPage url` is the page
that `fetch`, `JSDOM` and `Readability` produce for `url`, `none` when one of
them throws inside the `try` block of `scrapeUrl`; `turndown` is the
conversion to Markdown of line 161; `today` is `dayjs().format('YYYY-MM-DD')`;
`mkdirError path` is the code of the error that
`fs.mkdirSync(path, { recursive: true })` throws, `none` when it succeeds, and
`writeError path content` the same for `fs.writeFileSync(path, content)`. -/
structure Env where
  readFileSync : String → Option String
  pathJoin : String → String → String
  dirname : String
  fetchPage : String → Option Page
  turndown : String → String
  today : String
  mkdirError : String → Option String
  writeError : String → String → Option String

/-- The constant `defaultTemplatePath` of `getDefaultTemplate` (line 24). -/
def defaultTemplatePath (env : Env) : String :=
  env.pathJoin env.dirname "../templates/default.md"

/-- `getDefaultTemplate()` (lines 23-31).  The identifier `DEFAULT_TEMPLATE`
that the `catch` block returns is declared nowhere (line 20 announces it and
nothing follows), so evaluating it throws a `ReferenceError`, after the
warning has been printed. -/
def getDefaultTemplate (env : Env) : Except JsError String :=
  match env.readFileSync (defaultTemplatePath env) with
  | some text => .ok text
  | none => .error (.referenceError "DEFAULT_TEMPLATE")

/-- The constant `template` of `applyTemplate` (line 104):
`templateContent || getDefaultTemplate()`. -/
def resolveTemplate (env : Env) (templateContent : Option String) : Except JsError String :=
  if truthy templateContent then .ok (templateContent.getD "") else getDefaultTemplate env

/-- The chain of six replacements of `applyTemplate` (lines 106-112). -/
def render (content : String) (metadata : Metadata) (template : String) : String :=
  jsReplace "{{content}}" content
    (jsReplace "{{description}}" (orString metadata.description "")
      (jsReplace "{{date}}" metadata.date
        (jsReplace "{{author}}" (orString metadata.author "Unknown")
          (jsReplace "{{url}}" metadata.url
            (jsReplace "{{title}}" metadata.title template)))))

/-- `applyTemplate(content, metadata, templateContent)` (lines 103-113). -/
def applyTemplate (env : Env) (content : String) (metadata : Metadata)
    (templateContent : Option String) : Except JsError String :=
  (resolveTemplate env templateContent).map (render content metadata)

/-! ## The file system and the console -/

/-- The lines that the functions below print, by the source line that prints
them.  The warning of `getDefaultTemplate` is not recorded: it is printed only
on the way to the `ReferenceError`. -/
inductive LogLine where
  /-- Line 39, `Created directory: ...`. -/
  | createdDirectory (path : String)
  /-- Line 120, `Fetching: ...`. -/
  | fetching (url : String)
  /-- Line 141, `Failed to extract content from ...`. -/
  | failedToExtract (url : String)
  /-- Line 174, `Error scraping ...`. -/
  | errorScraping (url : String)
  /-- Line 201, `Saved to: ...`. -/
  | savedTo (path : String)
  /-- Lines 217-218, `Error loading template file` and `Using default template.`. -/
  | errorLoadingTemplate
  /-- Line 236, `Saved clipping.`. -/
  | savedClipping
  /-- The message of the error thrown by the `check` of lines 276-284, which
  `yargs` prints before it exits. -/
  | validationFailed (message : String)
  /-- Line 298, `Error reading URL file`. -/
  | errorReadingUrlFile
  /-- Line 303, `Processing n URLs...`. -/
  | processing (count : Nat)
  /-- Line 306, `Done!`. -/
  | done
  /-- Line 323, `Fatal error:`. -/
  | fatalError (error : JsError)
  deriving DecidableEq, Repr

/-- The state the program acts on: the files written, as a map from path to
contents kept as an association list with one entry per path, the directories
made, and the console. -/
structure World where
  files : List (String × String)
  dirs : List String
  console : List LogLine
  deriving DecidableEq, Repr

/-- `console.log` and `console.error`. -/
def World.log (w : World) (line : LogLine) : World :=
  { w with console := w.console ++ [line] }

/-- `fs.writeFileSync(path, content)` on the map of files: the entry of `path`
is overwritten when there is one and added otherwise. -/
def writeFile (path content : String) : List (String × String) → List (String × String)
  | [] => [(path, content)]
  | (p, c) :: rest =>
    if p = path then (p, content) :: rest else (p, c) :: writeFile path content rest

/-- The contents of the file at `path`, if there is one. -/
def readFile (path : String) : List (String × String) → Option String
  | [] => none
  | (p, c) :: rest => if p = path then some c else readFile path rest

/-- `fs.existsSync(path)`: the path is that of a directory or of a file. -/
def existsSync (path : String) (w : World) : Bool :=
  w.dirs.contains path || (readFile path w.files).isSome

/-- `ensureDirectoryExists(directoryPath)` (lines 36-41): the exception that
`mkdirSync` throws, if it does, and the world after the call. -/
def ensureDirectoryExists (env : Env) (directoryPath : String) (w : World) :
    Except JsError Unit × World :=
  if existsSync directoryPath w then (.ok (), w)
  else match env.mkdirError directoryPath with
    | some code => (.error (.systemError code), w)
    | none =>
      (.ok (), { w with dirs := directoryPath :: w.dirs,
                        console := w.console ++ [.createdDirectory directoryPath] })

/-! ## `extractMetadata` and `scrapeUrl` -/

/-- `extractMetadata(document, url)` (lines 62-98). -/
def extractMetadata (env : Env) (document : Document) (url : String) : Metadata :=
  { url := url
    title := if document.title != "" then document.title else "Untitled Page"
    author := match document.authorMeta with
      | some content => content
      | none => some ""
    date := match document.dateMeta with
      | some (some formatted) => formatted
      | _ => env.today
    description := match document.descMeta with
      | some content => content
      | none => some "" }

/-- The object `{ markdown, metadata }` that `scrapeUrl` returns. -/
structure ScrapeResult where
  markdown : String
  metadata : Metadata
  deriving DecidableEq, Repr

/-- Lines 163-170 of `scrapeUrl`: the two updates of the metadata from the
article. -/
def updateFromArticle (article : Article) (metadata : Metadata) : Metadata :=
  let metadata :=
    if truthy article.byline && !truthy metadata.author then
      { metadata with author := article.byline }
    else metadata
  if truthy article.title && !(metadata.title != "") then
    { metadata with title := article.title.getD "" }
  else metadata

/-- `scrapeUrl(url)` (lines 118-177): the value returned, `none` for `null`,
and the world with the lines printed. -/
def scrapeUrl (env : Env) (url : String) (w : World) : Option ScrapeResult × World :=
  let w := w.log (.fetching url)
  match env.fetchPage url with
  | none => (none, w.log (.errorScraping url))
  | some page =>
    let metadata := extractMetadata env page.document url
    match page.article with
    | none => (none, w.log (.failedToExtract url))
    | some article =>
      (some ⟨env.turndown article.content, updateFromArticle article metadata⟩, w)

/-! ## `saveToObsidian` and `processUrls` -/

/-- The variable `folderPath` of `saveToObsidian` (lines 184-189).  `vaultPath`
is `none` when the caller passes `undefined`, on which `path.join` throws. -/
def destinationFolder (env : Env) (vaultPath : Option String) (folderName : String)
    (outputPath : Option String) : Except JsError String :=
  if truthy outputPath then .ok (outputPath.getD "")
  else match vaultPath with
    | some vault => .ok (env.pathJoin vault folderName)
    | none => .error (.typeError "path.join")

/-- `saveToObsidian(markdown, metadata, vaultPath, folderName, templateContent,
outputPath)` (lines 182-204): the path returned or the exception thrown, and
the world after the call. -/
def saveToObsidian (env : Env) (markdown : String) (metadata : Metadata)
    (vaultPath : Option String) (folderName : String) (templateContent : Option String)
    (outputPath : Option String) (w : World) : Except JsError String × World :=
  match destinationFolder env vaultPath folderName outputPath with
  | .error e => (.error e, w)
  | .ok folderPath =>
    match ensureDirectoryExists env folderPath w with
    | (.error e, w) => (.error e, w)
    | (.ok _, w) =>
      let filename := createFilename metadata.title
      let filePath := env.pathJoin folderPath filename
      match applyTemplate env markdown metadata templateContent with
      | .error e => (.error e, w)
      | .ok formattedContent =>
        match env.writeError filePath formattedContent with
        | some code => (.error (.systemError code), w)
        | none =>
          (.ok filePath,
            { w with files := writeFile filePath formattedContent w.files,
                     console := w.console ++ [.savedTo filePath] })

/-- Lines 210-220 of `processUrls`: the template file is read when a path is
given; `templateContent` stays `null` when there is none or it cannot be
read. -/
def loadTemplate (env : Env) (templatePath : Option String) (w : World) :
    Option String × World :=
  if truthy templatePath then
    match env.readFileSync (templatePath.getD "") with
    | some text => (some text, w)
    | none => (none, w.log .errorLoadingTemplate)
  else (none, w)

/-- The loop of `processUrls` (lines 223-235). -/
def processLoop (env : Env) (vaultPath : Option String) (folderName : String)
    (templateContent outputPath : Option String) :
    List String → World → Except JsError Unit × World
  | [], w => (.ok (), w)
  | url :: rest, w =>
    match scrapeUrl env url w with
    | (some result, w1) =>
      match saveToObsidian env result.markdown result.metadata vaultPath folderName
          templateContent outputPath w1 with
      | (.ok _, w2) => processLoop env vaultPath folderName templateContent outputPath rest w2
      | (.error e, w2) => (.error e, w2)
    | (none, w1) => processLoop env vaultPath folderName templateContent outputPath rest w1

/-- `processUrls(urls, vaultPath, folderName, templatePath, outputPath)` (lines
209-237). -/
def processUrls (env : Env) (urls : List String) (vaultPath : Option String)
    (folderName : String) (templatePath outputPath : Option String) (w : World) :
    Except JsError Unit × World :=
  let loaded := loadTemplate env templatePath w
  match processLoop env vaultPath folderName loaded.1 outputPath urls loaded.2 with
  | (.ok _, w1) => (.ok (), w1.log .savedClipping)
  | (.error e, w1) => (.error e, w1)

/-! ## `main` -/

/-- The parsed command line of `scraper.js` (lines 244-275).  `url` is `none`
when the option is absent and a possibly empty array otherwise; `output`
defaults to `null` and `folder` to `Clippings`. -/
structure Argv where
  url : Option (List String)
  file : Option String
  vault : Option String
  output : Option String
  folder : String
  template : Option String
  deriving DecidableEq, Repr

/-- The function given to `.check` (lines 276-284): the message of the error
thrown, or `true`.  An array, empty or not, is truthy. -/
def check (argv : Argv) : Except String Bool :=
  if !truthy argv.output && !truthy argv.vault then
    .error "Either --output or --vault must be provided."
  else if !argv.url.isSome && !truthy argv.file then
    .error "Either --url or --file must be provided."
  else .ok true

/-- The URLs read from the file of line 294: the lines, trimmed, that are not
empty and start with `http` (line 295). -/
def fileUrls (fileContent : String) : List String :=
  (((fileContent.data.splitOn '\n').map jsTrim).filter
    fun line => decide (line.length > 0) && "http".data.isPrefixOf line).map String.mk

/-- How the process ends. -/
inductive ExitStatus where
  | success
  | failure (code : Nat)
  deriving DecidableEq, Repr

/-- `main()` with the handler of lines 321-326: the exit status and the world
at the end. -/
def main (env : Env) (argv : Argv) (w : World) : ExitStatus × World :=
  match check argv with
  | .error message => (.failure 1, w.log (.validationFailed message))
  | .ok _ =>
    let urls : List String :=
      match argv.url with
      | some given => if given.length > 0 then given else []
      | none => []
    let gathered : Option (List String) :=
      if truthy argv.file then
        (env.readFileSync (argv.file.getD "")).map fun text => urls ++ fileUrls text
      else some urls
    match gathered with
    | none => (.failure 1, w.log .errorReadingUrlFile)
    | some urls =>
      match processUrls env urls argv.vault argv.folder argv.template argv.output
          (w.log (.processing urls.length)) with
      | (.ok _, w1) => (.success, w1.log .done)
      | (.error e, w1) => (.failure 1, w1.log (.fatalError e))

/-! ## Notions used to state the properties -/

/-- Two neighbouring characters that are not both hyphens. -/
def NotBothHyphen (a b : Char) : Prop := ¬ (a = '-' ∧ b = '-')

/-- The three replacements of `createFilename`, before `trim`. -/
def replaced (title : List Char) : List Char :=
  replaceRuns isHyphen ['-']
    (replaceRuns isJsWhitespace ['-'] (replaceEach isInvalidFilenameChar ['-'] title))

/-- The five placeholders other than `{{author}}`. -/
def otherPlaceholders : List String :=
  ["{{title}}", "{{url}}", "{{date}}", "{{description}}", "{{content}}"]

/-- The world before the program has run: no file, no directory, nothing
printed. -/
def World.empty : World := ⟨[], [], []⟩

/-- The value that `scrapeUrl` returns for `url`; it does not depend on the
world. -/
def scraped (env : Env) (url : String) : Option ScrapeResult :=
  (scrapeUrl env url World.empty).1

/-- The destination of the files as the specification words it: `outputPath`
when it is given (a non-empty text), otherwise `vaultPath` joined with
`folderName`. -/
def destinationOf (env : Env) (vaultPath : Option String) (folderName : String)
    (outputPath : Option String) : String :=
  match outputPath with
  | some output => if output = "" then env.pathJoin (vaultPath.getD "") folderName else output
  | none => env.pathJoin (vaultPath.getD "") folderName

/-- A destination is given: an output path, or a vault. -/
def DestinationGiven (vaultPath outputPath : Option String) : Prop :=
  (∃ output, outputPath = some output ∧ output ≠ "") ∨ ∃ vault, vaultPath = some vault

/-- The template in use for a template text that is supplied or not: the
text supplied when there is one, not empty, and otherwise the contents of the
default template file; `none` when that file cannot be read, the case in
which no template is in use. -/
def templateInUse (env : Env) (supplied : Option String) : Option String :=
  match supplied with
  | some text =>
    if text = "" then env.readFileSync (env.pathJoin env.dirname "../templates/default.md")
    else some text
  | none => env.readFileSync (env.pathJoin env.dirname "../templates/default.md")

/-- The template in use for a run of `processUrls`: that of the contents of
the template file when a path is given and the file can be read, and that of
no supplied text otherwise. -/
def templateOfRun (env : Env) (templatePath : Option String) : Option String :=
  match templatePath with
  | some path => if path = "" then templateInUse env none
    else templateInUse env (env.readFileSync path)
  | none => templateInUse env none

/-- The URLs of the `Fetching:` lines of a console, in order. -/
def fetchedUrls (console : List LogLine) : List String :=
  console.filterMap fun line =>
    match line with
    | .fetching url => some url
    | _ => none

/-- The paths of the `Saved to:` lines of a console, in order. -/
def savedPaths (console : List LogLine) : List String :=
  console.filterMap fun line =>
    match line with
    | .savedTo path => some path
    | _ => none

/-- The path at which a scraped page is saved in the folder `folderPath`. -/
def filePathOf (env : Env) (folderPath : String) (result : ScrapeResult) : String :=
  env.pathJoin folderPath (createFilename result.metadata.title)

/-- What the claim on the validation of the arguments takes it to accept: a
URL source, and an output directory or a vault but not both. -/
def acceptsExactlyOneDestination (argv : Argv) : Bool :=
  (argv.url.isSome || truthy argv.file) && (truthy argv.output != truthy argv.vault)

/-- What the check of the arguments accepts: a URL source, and an output
directory or a vault, or both. -/
def acceptsSomeDestination (argv : Argv) : Bool :=
  (argv.url.isSome || truthy argv.file) && (truthy argv.output || truthy argv.vault)

/-! ## Sample inputs -/

/-- A page with a title and an article. -/
def samplePage (title : String) : Page :=
  ⟨⟨title, none, none, none⟩, some ⟨some title, "<p>text</p>", none⟩⟩

/-- An environment in which no file can be read and no page fetched. -/
def envNoFiles : Env :=
  ⟨fun _ => none, fun a b => a ++ "/" ++ b, "bin", fun _ => none, id, "2024-01-01",
    fun _ => none, fun _ _ => none⟩

/-- An environment whose only readable file is the default template and in
which the pages `http://a` and `http://b` both carry the title `T`, the page
`http://c` the title `C`, and no other page can be fetched. -/
def envDefaultOnly : Env :=
  ⟨fun path => if path = "bin/../templates/default.md" then some "# {{title}}" else none,
    fun a b => a ++ "/" ++ b, "bin",
    fun url =>
      if url = "http://a" ∨ url = "http://b" then some (samplePage "T")
      else if url = "http://c" then some (samplePage "C")
      else none,
    id, "2024-01-01", fun _ => none, fun _ _ => none⟩

/-- The environment `envDefaultOnly` with a template file `t.md` added. -/
def envWithTemplate : Env :=
  { envDefaultOnly with
    readFileSync := fun path =>
      if path = "t.md" then some "{{url}}: {{content}}" else envDefaultOnly.readFileSync path }

/-- The environment `envWithTemplate` in which `out/T.md` cannot be written:
`writeFileSync` throws `EACCES`, as it does on a file that exists and is
read-only. -/
def envReadOnly : Env :=
  { envWithTemplate with
    writeError := fun path _ => if path = "out/T.md" then some "EACCES" else none }

/-- A metadata object with an empty author and no description. -/
def sampleMetadata : Metadata := ⟨"http://x", "T", some "", "2024-01-01", none⟩

/-- An environment in which the page `http://u` has no title of its own and
the article extracted from it has the title `Hello`. -/
def envUntitled : Env :=
  ⟨fun _ => none, fun a b => a ++ "/" ++ b, "bin",
    fun url =>
      if url = "http://u" then
        some ⟨⟨"", none, none, none⟩, some ⟨some "Hello", "<p>text</p>", none⟩⟩
      else none,
    id, "2024-01-01", fun _ => none, fun _ _ => none⟩

/-- A command line with a URL, an output directory and a vault. -/
def argvBoth : Argv := ⟨some ["http://a"], none, some "vault", some "out", "Clippings", none⟩

/-- A command line with a URL and no destination. -/
def argvNoDestination : Argv := ⟨some ["http://a"], none, none, none, "Clippings", none⟩

/-! ## Lemmas on the string primitives -/

theorem mem_replaceEach {p : Char → Bool} {r : List Char} {c : Char} :
    ∀ {s : List Char}, c ∈ replaceEach p r s → c ∈ r ∨ (c ∈ s ∧ p c = false) := by
  intro s
  induction s with
  | nil => intro h; simp [replaceEach] at h
  | cons d ds ih =>
    intro h
    by_cases hd : p d = true
    · simp only [replaceEach, hd, if_true, List.mem_append] at h
      rcases h with h | h
      · exact Or.inl h
      · rcases ih h with h1 | ⟨h1, h2⟩
        · exact Or.inl h1
        · exact Or.inr ⟨List.mem_cons_of_mem _ h1, h2⟩
    · have hd' : p d = false := by simpa using hd
      simp only [replaceEach, hd', Bool.false_eq_true, if_false, List.mem_cons] at h
      rcases h with h | h
      · subst h
        exact Or.inr ⟨List.mem_cons_self _ _, hd'⟩
      · rcases ih h with h1 | ⟨h1, h2⟩
        · exact Or.inl h1
        · exact Or.inr ⟨List.mem_cons_of_mem _ h1, h2⟩

theorem mem_replaceRunsAux {p : Char → Bool} {r : List Char} {c : Char} :
    ∀ {s : List Char} {inRun : Bool},
      c ∈ replaceRunsAux p r inRun s → c ∈ r ∨ (c ∈ s ∧ p c = false) := by
  intro s
  induction s with
  | nil => intro inRun h; simp [replaceRunsAux] at h
  | cons d ds ih =>
    intro inRun h
    by_cases hd : p d = true
    · cases inRun
      · simp only [replaceRunsAux, hd, if_true, Bool.false_eq_true, if_false,
          List.mem_append] at h
        rcases h with h | h
        · exact Or.inl h
        · rcases ih h with h1 | ⟨h1, h2⟩
          · exact Or.inl h1
          · exact Or.inr ⟨List.mem_cons_of_mem _ h1, h2⟩
      · simp only [replaceRunsAux, hd, if_true] at h
        rcases ih h with h1 | ⟨h1, h2⟩
        · exact Or.inl h1
        · exact Or.inr ⟨List.mem_cons_of_mem _ h1, h2⟩
    · have hd' : p d = false := by simpa using hd
      simp only [replaceRunsAux, hd', Bool.false_eq_true, if_false, List.mem_cons] at h
      rcases h with h | h
      · subst h
        exact Or.inr ⟨List.mem_cons_self _ _, hd'⟩
      · rcases ih h with h1 | ⟨h1, h2⟩
        · exact Or.inl h1
        · exact Or.inr ⟨List.mem_cons_of_mem _ h1, h2⟩

theorem replaceRunsAux_hyphen_chain :
    ∀ (s : List Char) (inRun : Bool),
      List.Chain' NotBothHyphen (replaceRunsAux isHyphen ['-'] inRun s) ∧
      (inRun = true → ∀ h ∈ (replaceRunsAux isHyphen ['-'] inRun s).head?, h ≠ '-') := by
  intro s
  induction s with
  | nil => intro inRun; simp [replaceRunsAux]
  | cons d ds ih =>
    intro inRun
    by_cases hd : isHyphen d = true
    · cases inRun
      · have h := ih true
        simp only [replaceRunsAux, hd, if_true, Bool.false_eq_true, if_false,
          List.singleton_append, List.chain'_cons', false_implies, and_true]
        refine ⟨fun y hy => ?_, h.1⟩
        intro hcontra
        exact h.2 rfl y hy hcontra.2
      · simpa only [replaceRunsAux, hd, if_true] using ih true
    · have hne : d ≠ '-' := by simpa [isHyphen] using hd
      have hd' : isHyphen d = false := by simpa using hd
      simp only [replaceRunsAux, hd', Bool.false_eq_true, if_false, List.chain'_cons',
        List.head?_cons, Option.mem_def, Option.some.injEq]
      refine ⟨⟨fun y _ hcontra => hne hcontra.1, (ih false).1⟩, fun _ h hh => ?_⟩
      subst hh
      exact hne

theorem no_double_hyphen_of_chain {l : List Char} (h : List.Chain' NotBothHyphen l) :
    ¬ (['-', '-'] <:+: l) := by
  intro hin
  have h2 := h.infix hin
  simp [NotBothHyphen] at h2

theorem jsTrim_infix (s : List Char) : jsTrim s <:+: s :=
  ((List.rdropWhile_prefix _ _).isInfix).trans ((List.dropWhile_suffix _).isInfix)

theorem dropWhile_eq_self_of_head {p : Char → Bool} :
    ∀ {s : List Char}, (∀ c ∈ s, p c = false) → s.dropWhile p = s := by
  intro s h
  cases s with
  | nil => rfl
  | cons c cs => simp [List.dropWhile, h c (List.mem_cons_self _ _)]

/-- A string without white space is left as it is by `trim`. -/
theorem jsTrim_eq_self {s : List Char} (h : ∀ c ∈ s, isJsWhitespace c = false) :
    jsTrim s = s := by
  unfold jsTrim
  rw [dropWhile_eq_self_of_head h, List.rdropWhile, dropWhile_eq_self_of_head, List.reverse_reverse]
  intro c hc
  exact h c (List.mem_reverse.mp hc)

theorem replaced_chars {title : List Char} {c : Char} (h : c ∈ replaced title) :
    isInvalidFilenameChar c = false ∧ isJsWhitespace c = false := by
  have hy : isInvalidFilenameChar '-' = false ∧ isJsWhitespace '-' = false := by decide
  unfold replaced replaceRuns at h
  rcases mem_replaceRunsAux h with h1 | ⟨h1, _⟩
  · rw [List.mem_singleton] at h1; subst h1; exact hy
  · rcases mem_replaceRunsAux h1 with h2 | ⟨h2, hws⟩
    · rw [List.mem_singleton] at h2; subst h2; exact hy
    · rcases mem_replaceEach h2 with h3 | ⟨_, hinv⟩
      · rw [List.mem_singleton] at h3; subst h3; exact hy
      · exact ⟨hinv, hws⟩

/-- The call of `trim` on line 51 has no effect: no white space is left after
the second replacement. -/
theorem sanitized_eq_replaced (title : List Char) : sanitized title = replaced title :=
  jsTrim_eq_self fun _ hc => (replaced_chars hc).2

theorem sanitized_chain (title : List Char) :
    List.Chain' NotBothHyphen (sanitized title) := by
  rw [sanitized_eq_replaced]
  exact (replaceRunsAux_hyphen_chain _ false).1

theorem finalName_ne_nil (title : List Char) : finalName title ≠ [] := by
  unfold finalName
  split
  · intro h
    simp_all
  · decide

theorem finalName_cases (title : List Char) :
    (finalName title = sanitized title ∧ sanitized title ≠ []) ∨
      (finalName title = "untitled".data ∧ sanitized title = []) := by
  unfold finalName
  by_cases h : (sanitized title).length > 0
  · left
    rw [if_pos h]
    exact ⟨rfl, List.ne_nil_of_length_pos h⟩
  · right
    rw [if_neg h]
    exact ⟨rfl, List.eq_nil_of_length_eq_zero (by omega)⟩

/-! ## Lemmas on `replacePattern` -/

theorem getSubstitution_plain (matched before after : List Char) :
    ∀ (repl : List Char), (∀ c ∈ repl, c ≠ '$') →
      getSubstitution matched before after repl = repl := by
  intro repl
  induction repl with
  | nil => intro _; rfl
  | cons c tl ih =>
    intro h
    cases tl with
    | nil => rfl
    | cons d rest =>
      have hc : c ≠ '$' := h c (List.mem_cons_self _ _)
      have ih' := ih fun x hx => h x (List.mem_cons_of_mem _ hx)
      simp only [getSubstitution, hc, if_false]
      rw [ih']

/-- Passing over `skip` characters moves them to the scanned part. -/
theorem replacePattern_skip (pat repl : List Char) :
    ∀ (s before : List Char) (skip : Nat),
      replacePattern pat repl before skip s =
        replacePattern pat repl (before ++ s.take skip) 0 (s.drop skip) := by
  intro s
  induction s with
  | nil => intro before skip; cases skip <;> simp [replacePattern]
  | cons c cs ih =>
    intro before skip
    cases skip with
    | zero => simp
    | succ k =>
      rw [replacePattern, ih]
      simp

theorem replacePattern_match {pat : List Char} (repl : List Char) (hpat : pat ≠ [])
    {s : List Char} (before : List Char) (h : pat <+: s) :
    replacePattern pat repl before 0 s =
      getSubstitution pat before (s.drop pat.length) repl ++
        replacePattern pat repl (before ++ pat) 0 (s.drop pat.length) := by
  cases s with
  | nil => exact absurd (List.prefix_nil.mp h) hpat
  | cons c cs =>
    obtain ⟨p, ps, rfl⟩ := List.exists_cons_of_ne_nil hpat
    have hpc : p = c := (List.cons_prefix_cons.mp h).1
    subst hpc
    have hps : ps <+: cs := (List.cons_prefix_cons.mp h).2
    have hb : (p :: ps).isPrefixOf (p :: cs) = true := List.isPrefixOf_iff_prefix.mpr h
    rw [replacePattern, if_pos hb, replacePattern_skip]
    have htake : cs.take ps.length = ps := List.prefix_iff_eq_take.mp hps |>.symm
    simp [htake]

theorem replacePattern_no_match {pat : List Char} (repl : List Char) {c : Char}
    {cs : List Char} (before : List Char) (h : ¬ pat <+: c :: cs) :
    replacePattern pat repl before 0 (c :: cs) =
      c :: replacePattern pat repl (before ++ [c]) 0 cs := by
  have hb : ¬ (pat.isPrefixOf (c :: cs) = true) := fun hb => h (List.isPrefixOf_iff_prefix.mp hb)
  rw [replacePattern, if_neg hb]

/-- A string in which the pattern does not occur is left as it is, whatever
the replacement. -/
theorem replacePattern_absent (pat repl : List Char) :
    ∀ (s before : List Char), ¬ pat <:+: s → replacePattern pat repl before 0 s = s := by
  intro s
  induction s with
  | nil => intro _ _; rfl
  | cons c cs ih =>
    intro before h
    have h1 : ¬ pat <+: c :: cs := fun hp => h hp.isInfix
    have h2 : ¬ pat <:+: cs := fun hp => h (List.infix_cons hp)
    rw [replacePattern_no_match repl before h1, ih _ h2]

theorem jsReplace_absent (pat repl s : String) (h : ¬ pat.data <:+: s.data) :
    jsReplace pat repl s = s := by
  unfold jsReplace
  rw [replacePattern_absent _ _ _ _ h]

theorem intercalate_singleton (sep x : List Char) : List.intercalate sep [x] = x := by
  simp [List.intercalate]

theorem intercalate_cons_cons (sep x y : List Char) (l : List (List Char)) :
    List.intercalate sep (x :: y :: l) = x ++ sep ++ List.intercalate sep (y :: l) := by
  simp [List.intercalate, List.intersperse]

theorem intercalate_cons_head (sep : List Char) (c : Char) (x : List Char)
    (l : List (List Char)) :
    List.intercalate sep ((c :: x) :: l) = c :: List.intercalate sep (x :: l) := by
  cases l with
  | nil => simp [intercalate_singleton]
  | cons y l => simp [intercalate_cons_cons]

theorem prefix_intercalate_head (sep x : List Char) (l : List (List Char)) :
    x <+: List.intercalate sep (x :: l) := by
  cases l with
  | nil => simp [intercalate_singleton]
  | cons y l =>
    rw [intercalate_cons_cons, List.append_assoc]
    exact List.prefix_append _ _

/-- The replacement of a literal pattern by a text without `$` cuts the string
at the occurrences of the pattern and joins the pieces with the text. -/
theorem replacePattern_segments {pat repl : List Char} (hpat : pat ≠ [])
    (hrepl : ∀ c ∈ repl, c ≠ '$') :
    ∀ (n : Nat) (s before : List Char), s.length = n →
      ∃ seg tl, s = List.intercalate pat (seg :: tl) ∧
        (∀ x ∈ seg :: tl, ¬ pat <:+: x) ∧
        replacePattern pat repl before 0 s = List.intercalate repl (seg :: tl) := by
  intro n
  induction n using Nat.strong_induction_on with
  | _ n ih =>
    intro s before hn
    cases s with
    | nil =>
      refine ⟨[], [], by simp [intercalate_singleton], ?_, by simp [intercalate_singleton, replacePattern]⟩
      intro x hx
      rw [List.mem_singleton] at hx
      subst hx
      exact fun h => hpat (List.infix_nil.mp h)
    | cons c cs =>
      by_cases hm : pat <+: c :: cs
      · have hlen : ((c :: cs).drop pat.length).length < n := by
          have : 0 < pat.length := List.length_pos.mpr hpat
          rw [List.length_drop, hn.symm]
          simp only [List.length_cons]
          omega
        obtain ⟨seg, tl, h1, h2, h3⟩ := ih _ hlen ((c :: cs).drop pat.length) (before ++ pat) rfl
        refine ⟨[], seg :: tl, ?_, ?_, ?_⟩
        · rw [intercalate_cons_cons, ← h1, List.nil_append]
          have := List.prefix_iff_eq_append.mp hm
          exact this.symm
        · intro x hx
          rcases List.mem_cons.mp hx with hx | hx
          · subst hx
            exact fun h => hpat (List.infix_nil.mp h)
          · exact h2 x hx
        · rw [replacePattern_match repl hpat before hm, getSubstitution_plain _ _ _ _ hrepl, h3,
            intercalate_cons_cons, List.nil_append]
      · have hlen : cs.length < n := by
          rw [← hn]
          simp
        obtain ⟨seg, tl, h1, h2, h3⟩ := ih _ hlen cs (before ++ [c]) rfl
        refine ⟨c :: seg, tl, ?_, ?_, ?_⟩
        · rw [intercalate_cons_head, ← h1]
        · intro x hx
          rcases List.mem_cons.mp hx with hx | hx
          · subst hx
            intro hin
            rcases List.infix_cons_iff.mp hin with hp | hi
            · apply hm
              have hseg : seg <+: cs := by
                conv_rhs => rw [h1]
                exact prefix_intercalate_head _ _ _
              exact hp.trans ((List.prefix_cons_inj c).mpr hseg)
            · exact h2 seg (List.mem_cons_self _ _) hi
          · exact h2 x (List.mem_cons_of_mem _ hx)
        · rw [replacePattern_no_match repl before hm, h3, intercalate_cons_head]

theorem infix_of_infix_append {h : Char} {t : List Char} :
    ∀ (u : List Char) {x : List Char}, h ∉ u → (h :: t) <:+: u ++ x → (h :: t) <:+: x := by
  intro u
  induction u with
  | nil => intro x _ hin; exact hin
  | cons a u ih =>
    intro x hmem hin
    rw [List.cons_append] at hin
    rcases List.infix_cons_iff.mp hin with hp | hi
    · exact absurd (List.cons_prefix_cons.mp hp).1 (fun e => hmem (e ▸ List.mem_cons_self _ _))
    · exact ih (fun hu => hmem (List.mem_cons_of_mem _ hu)) hi

/-- A text that does not hold the first character of the replacement starts
the result of a replacement only if it starts the original string. -/
theorem prefix_of_prefix_replacePattern {pat u : List Char} {a : Char} (hpat : pat ≠ [])
    (hu : ∀ c ∈ a :: u, c ≠ '$') :
    ∀ (s before q : List Char), a ∉ q →
      q <+: replacePattern pat (a :: u) before 0 s → q <+: s := by
  intro s
  induction s with
  | nil => intro before q _ h; simpa [replacePattern] using h
  | cons c cs ih =>
    intro before q hq h
    cases q with
    | nil => exact List.nil_prefix
    | cons b q =>
      by_cases hm : pat <+: c :: cs
      · rw [replacePattern_match _ hpat before hm, getSubstitution_plain _ _ _ _ hu,
          List.cons_append] at h
        exact absurd (List.cons_prefix_cons.mp h).1 (fun e => hq (e ▸ List.mem_cons_self _ _))
      · rw [replacePattern_no_match _ before hm] at h
        obtain ⟨hbc, hqp⟩ := List.cons_prefix_cons.mp h
        subst hbc
        exact (List.prefix_cons_inj b).mpr
          (ih _ q (fun hmem => hq (List.mem_cons_of_mem _ hmem)) hqp)

/-- A text that starts with a character foreign to the replacement, and does
not hold the first character of the replacement, occurs in the result of a
replacement only if it occurs in the original string. -/
theorem infix_of_infix_replacePattern {pat u : List Char} {a h : Char} {t : List Char}
    (hpat : pat ≠ []) (hu : ∀ c ∈ a :: u, c ≠ '$') (hh : h ∉ a :: u) (ha : a ∉ h :: t) :
    ∀ (n : Nat) (s before : List Char), s.length = n →
      (h :: t) <:+: replacePattern pat (a :: u) before 0 s → (h :: t) <:+: s := by
  intro n
  induction n using Nat.strong_induction_on with
  | _ n ih =>
    intro s before hn hin
    cases s with
    | nil => simp [replacePattern] at hin
    | cons c cs =>
      by_cases hm : pat <+: c :: cs
      · have hlen : ((c :: cs).drop pat.length).length < n := by
          have : 0 < pat.length := List.length_pos.mpr hpat
          rw [List.length_drop, hn.symm]
          simp only [List.length_cons]
          omega
        rw [replacePattern_match _ hpat before hm, getSubstitution_plain _ _ _ _ hu] at hin
        have h2 := ih _ hlen _ _ rfl (infix_of_infix_append (a :: u) hh hin)
        exact h2.trans (List.drop_suffix _ _).isInfix
      · have hlen : cs.length < n := by
          rw [← hn]
          simp
        rw [replacePattern_no_match _ before hm] at hin
        rcases List.infix_cons_iff.mp hin with hp | hi
        · exact (prefix_of_prefix_replacePattern hpat hu (c :: cs) before (h :: t) ha
            (by rw [replacePattern_no_match _ before hm]; exact hp)).isInfix
        · exact List.infix_cons (ih _ hlen cs _ rfl hi)

/-! ## Lemmas on the map of files -/

theorem readFile_writeFile_same (path content : String) :
    ∀ (files : List (String × String)), readFile path (writeFile path content files) = some content := by
  intro files
  induction files with
  | nil => simp [writeFile, readFile]
  | cons e rest ih =>
    obtain ⟨p, c⟩ := e
    by_cases h : p = path
    · simp [writeFile, readFile, h]
    · simp [writeFile, readFile, h, ih]

theorem readFile_writeFile_other {path other : String} (content : String) (h : other ≠ path) :
    ∀ (files : List (String × String)),
      readFile other (writeFile path content files) = readFile other files := by
  intro files
  induction files with
  | nil => simp [writeFile, readFile, h.symm]
  | cons e rest ih =>
    obtain ⟨p, c⟩ := e
    by_cases hp : p = path
    · subst hp
      simp [writeFile, readFile, h.symm]
    · by_cases hq : p = other
      · subst hq
        simp [writeFile, readFile, h]
      · simp [writeFile, readFile, hp, hq, ih]

theorem writeFile_of_not_mem {path : String} (content : String) :
    ∀ {files : List (String × String)}, path ∉ files.map Prod.fst →
      writeFile path content files = files ++ [(path, content)] := by
  intro files
  induction files with
  | nil => intro _; rfl
  | cons e rest ih =>
    intro h
    obtain ⟨p, c⟩ := e
    have hp : p ≠ path := fun e => h (by simp [e])
    have hrest : path ∉ rest.map Prod.fst := fun hm => h (by simp at hm ⊢; exact Or.inr hm)
    simp [writeFile, hp, ih hrest]

theorem keys_writeFile_of_mem {path : String} (content : String) :
    ∀ {files : List (String × String)}, path ∈ files.map Prod.fst →
      (writeFile path content files).map Prod.fst = files.map Prod.fst := by
  intro files
  induction files with
  | nil => intro h; simp at h
  | cons e rest ih =>
    intro h
    obtain ⟨p, c⟩ := e
    by_cases hp : p = path
    · simp [writeFile, hp]
    · have hrest : path ∈ rest.map Prod.fst := by
        rcases List.mem_cons.mp h with h | h
        · exact absurd h.symm hp
        · exact h
      simp [writeFile, hp, ih hrest]

theorem mem_keys_writeFile (path content : String) (files : List (String × String)) :
    path ∈ (writeFile path content files).map Prod.fst := by
  by_cases h : path ∈ files.map Prod.fst
  · rw [keys_writeFile_of_mem content h]
    exact h
  · rw [writeFile_of_not_mem content h]
    simp

theorem nodup_keys_writeFile (path content : String) {files : List (String × String)}
    (h : (files.map Prod.fst).Nodup) : ((writeFile path content files).map Prod.fst).Nodup := by
  by_cases hm : path ∈ files.map Prod.fst
  · rw [keys_writeFile_of_mem content hm]
    exact h
  · rw [writeFile_of_not_mem content hm, List.map_append]
    refine List.Nodup.append h (by simp) ?_
    intro x hx hx'
    simp at hx'
    exact hm (hx' ▸ hx)

theorem length_writeFile_of_mem {path : String} (content : String)
    {files : List (String × String)} (h : path ∈ files.map Prod.fst) :
    (writeFile path content files).length = files.length := by
  have := congrArg List.length (keys_writeFile_of_mem content h)
  simpa using this

/-- Writing files with distinct paths, none of them present, adds them in
order. -/
theorem foldl_writeFile_distinct {α : Type} (path content : α → String) :
    ∀ (rs : List α) (files : List (String × String)),
      (rs.map path).Nodup → (∀ r ∈ rs, path r ∉ files.map Prod.fst) →
      rs.foldl (fun fs r => writeFile (path r) (content r) fs) files =
        files ++ rs.map fun r => (path r, content r) := by
  intro rs
  induction rs with
  | nil => intro files _ _; simp
  | cons r rest ih =>
    intro files hnd hfresh
    have hr : path r ∉ files.map Prod.fst := hfresh r (List.mem_cons_self _ _)
    rw [List.map_cons, List.nodup_cons] at hnd
    rw [List.foldl_cons, writeFile_of_not_mem _ hr, ih _ hnd.2]
    · simp
    · intro x hx hmem
      rw [List.map_append, List.mem_append] at hmem
      rcases hmem with hmem | hmem
      · exact hfresh x (List.mem_cons_of_mem _ hx) hmem
      · simp at hmem
        exact hnd.1 (hmem ▸ List.mem_map_of_mem path hx)

theorem readFile_of_mem_nodup {path content : String} :
    ∀ {files : List (String × String)}, (files.map Prod.fst).Nodup →
      (path, content) ∈ files → readFile path files = some content := by
  intro files
  induction files with
  | nil => intro _ h; simp at h
  | cons e rest ih =>
    intro hnd hmem
    obtain ⟨p, c⟩ := e
    rw [List.map_cons, List.nodup_cons] at hnd
    rcases List.mem_cons.mp hmem with h | h
    · injection h with h1 h2
      subst h1 h2
      simp [readFile]
    · have hp : p ≠ path := by
        intro e
        subst e
        exact hnd.1 (List.mem_map.mpr ⟨(p, content), h, rfl⟩)
      simp [readFile, hp, ih hnd.2 h]

/-! ## Lemmas on `scrapeUrl`, `saveToObsidian` and `processUrls` -/

theorem fetchedUrls_append (a b : List LogLine) :
    fetchedUrls (a ++ b) = fetchedUrls a ++ fetchedUrls b := by
  simp [fetchedUrls, List.filterMap_append]

theorem savedPaths_append (a b : List LogLine) :
    savedPaths (a ++ b) = savedPaths a ++ savedPaths b := by
  simp [savedPaths, List.filterMap_append]

/-- `scrapeUrl` returns the same value in every world, writes no file and
prints one `Fetching:` line. -/
theorem scrapeUrl_effect (env : Env) (url : String) (w : World) :
    (scrapeUrl env url w).1 = scraped env url ∧
    (scrapeUrl env url w).2.files = w.files ∧
    fetchedUrls (scrapeUrl env url w).2.console = fetchedUrls w.console ++ [url] ∧
    savedPaths (scrapeUrl env url w).2.console = savedPaths w.console := by
  unfold scraped scrapeUrl
  cases env.fetchPage url with
  | none => simp [World.log, fetchedUrls_append, savedPaths_append, fetchedUrls, savedPaths]
  | some page =>
    obtain ⟨document, parsed⟩ := page
    cases parsed with
    | none => simp [World.log, fetchedUrls_append, savedPaths_append, fetchedUrls, savedPaths]
    | some article =>
      simp [World.log, fetchedUrls_append, savedPaths_append, fetchedUrls, savedPaths]

theorem ensureDirectoryExists_effect (env : Env) (directoryPath : String) (w : World)
    (hmkdir : env.mkdirError directoryPath = none) :
    ∃ w1, ensureDirectoryExists env directoryPath w = (.ok (), w1) ∧
      w1.files = w.files ∧
      fetchedUrls w1.console = fetchedUrls w.console ∧
      savedPaths w1.console = savedPaths w.console := by
  unfold ensureDirectoryExists
  by_cases h : existsSync directoryPath w = true
  · rw [if_pos h]
    exact ⟨w, rfl, rfl, rfl, rfl⟩
  · rw [if_neg h, hmkdir]
    exact ⟨_, rfl, rfl, by simp [fetchedUrls_append, fetchedUrls],
      by simp [savedPaths_append, savedPaths]⟩

/-- With a destination given, `folderPath` is the destination as the
specification words it. -/
theorem destinationFolder_of_given (env : Env) {vaultPath outputPath : Option String}
    (folderName : String) (hdest : DestinationGiven vaultPath outputPath) :
    destinationFolder env vaultPath folderName outputPath =
      .ok (destinationOf env vaultPath folderName outputPath) := by
  unfold destinationFolder destinationOf
  cases outputPath with
  | some output =>
    by_cases ho : output = ""
    · rcases hdest with ⟨o, h1, h2⟩ | ⟨vault, hv⟩
      · injection h1 with h1
        exact absurd (h1 ▸ ho) h2
      · subst ho hv
        simp [truthy]
    · simp [truthy, ho]
  | none =>
    rcases hdest with ⟨o, h1, _⟩ | ⟨vault, hv⟩
    · simp at h1
    · subst hv
      simp [truthy]

/-- The template that `applyTemplate` takes is the template in use. -/
theorem resolveTemplate_of_inUse (env : Env) {supplied : Option String} {template : String}
    (h : templateInUse env supplied = some template) :
    resolveTemplate env supplied = .ok template := by
  unfold resolveTemplate getDefaultTemplate defaultTemplatePath
  cases supplied with
  | some text =>
    by_cases ht : text = ""
    · subst ht
      have h' : env.readFileSync (env.pathJoin env.dirname "../templates/default.md") =
          some template := by simpa [templateInUse] using h
      simp [truthy, h']
    · have h' : text = template := by simpa [templateInUse, ht] using h
      subst h'
      simp [truthy, ht]
  | none =>
    have h' : env.readFileSync (env.pathJoin env.dirname "../templates/default.md") =
        some template := by simpa [templateInUse] using h
    simp [truthy, h']

/-- A call of `saveToObsidian` with a destination and a template, in which
`mkdirSync` and `writeFileSync` do not throw, returns the path of the file
and writes the rendered text there. -/
theorem saveToObsidian_effect (env : Env) (markdown : String) (metadata : Metadata)
    (vaultPath : Option String) (folderName : String) (templateContent outputPath : Option String)
    (w : World) {template : String}
    (hdest : DestinationGiven vaultPath outputPath)
    (htemplate : templateInUse env templateContent = some template)
    (hmkdir : env.mkdirError (destinationOf env vaultPath folderName outputPath) = none)
    (hwrite : env.writeError
      (env.pathJoin (destinationOf env vaultPath folderName outputPath)
        (createFilename metadata.title))
      (render markdown metadata template) = none) :
    ∃ w1, saveToObsidian env markdown metadata vaultPath folderName templateContent
        outputPath w =
          (.ok (env.pathJoin (destinationOf env vaultPath folderName outputPath)
            (createFilename metadata.title)), w1) ∧
      w1.files = writeFile
        (env.pathJoin (destinationOf env vaultPath folderName outputPath)
          (createFilename metadata.title))
        (render markdown metadata template) w.files ∧
      fetchedUrls w1.console = fetchedUrls w.console ∧
      savedPaths w1.console = savedPaths w.console ++
        [env.pathJoin (destinationOf env vaultPath folderName outputPath)
          (createFilename metadata.title)] := by
  have happly : applyTemplate env markdown metadata templateContent =
      .ok (render markdown metadata template) := by
    simp [applyTemplate, resolveTemplate_of_inUse env htemplate, Except.map]
  obtain ⟨w0, h0, h1, h2, h3⟩ := ensureDirectoryExists_effect env
    (destinationOf env vaultPath folderName outputPath) w hmkdir
  have hsave : saveToObsidian env markdown metadata vaultPath folderName templateContent
      outputPath w =
        (.ok (env.pathJoin (destinationOf env vaultPath folderName outputPath)
          (createFilename metadata.title)),
        { w0 with
          files := writeFile
            (env.pathJoin (destinationOf env vaultPath folderName outputPath)
              (createFilename metadata.title))
            (render markdown metadata template) w0.files,
          console := w0.console ++
            [.savedTo (env.pathJoin (destinationOf env vaultPath folderName outputPath)
              (createFilename metadata.title))] }) := by
    simp only [saveToObsidian, destinationFolder_of_given env folderName hdest, h0, happly, hwrite]
  refine ⟨_, hsave, ?_, ?_, ?_⟩
  · simp [h1]
  · show fetchedUrls (_ ++ _) = _
    rw [fetchedUrls_append, h2]
    simp [fetchedUrls]
  · show savedPaths (_ ++ _) = _
    rw [savedPaths_append, h3]
    simp [savedPaths]

/-- The template text that `processUrls` loads gives the template of the
run; loading writes no file and prints no `Fetching:` or `Saved to:` line. -/
theorem loadTemplate_effect (env : Env) (templatePath : Option String) (w : World) :
    templateInUse env (loadTemplate env templatePath w).1 = templateOfRun env templatePath ∧
    (loadTemplate env templatePath w).2.files = w.files ∧
    fetchedUrls (loadTemplate env templatePath w).2.console = fetchedUrls w.console ∧
    savedPaths (loadTemplate env templatePath w).2.console = savedPaths w.console := by
  unfold loadTemplate templateOfRun
  cases templatePath with
  | none => simp [truthy]
  | some path =>
    by_cases hp : path = ""
    · subst hp
      simp [truthy]
    · cases hr : env.readFileSync path with
      | none =>
        simp [truthy, hp, hr, World.log, fetchedUrls_append, savedPaths_append, fetchedUrls,
          savedPaths]
      | some text => simp [truthy, hp, hr]

/-- The loop of `processUrls`, when no call of `saveToObsidian` throws. -/
theorem processLoop_effect (env : Env) (vaultPath : Option String) (folderName : String)
    (templateContent outputPath : Option String) {template : String}
    (hdest : DestinationGiven vaultPath outputPath)
    (htemplate : templateInUse env templateContent = some template)
    (hmkdir : env.mkdirError (destinationOf env vaultPath folderName outputPath) = none) :
    ∀ (urls : List String) (w : World),
      (∀ url ∈ urls, ∀ r, scraped env url = some r →
        env.writeError (filePathOf env (destinationOf env vaultPath folderName outputPath) r)
          (render r.markdown r.metadata template) = none) →
      ∃ w1, processLoop env vaultPath folderName templateContent outputPath urls w =
          (.ok (), w1) ∧
        fetchedUrls w1.console = fetchedUrls w.console ++ urls ∧
        savedPaths w1.console =
          savedPaths w.console ++ (urls.filterMap (scraped env)).map
            (filePathOf env (destinationOf env vaultPath folderName outputPath)) ∧
        w1.files = (urls.filterMap (scraped env)).foldl
          (fun files r =>
            writeFile (filePathOf env (destinationOf env vaultPath folderName outputPath) r)
              (render r.markdown r.metadata template) files)
          w.files := by
  intro urls
  induction urls with
  | nil => intro w _; exact ⟨w, rfl, by simp, by simp, by simp⟩
  | cons url rest ih =>
    intro w hwrite
    have hrest : ∀ u ∈ rest, ∀ r, scraped env u = some r →
        env.writeError (filePathOf env (destinationOf env vaultPath folderName outputPath) r)
          (render r.markdown r.metadata template) = none :=
      fun u hu => hwrite u (List.mem_cons_of_mem _ hu)
    obtain ⟨hs1, hs2, hs3, hs4⟩ := scrapeUrl_effect env url w
    cases hres : scrapeUrl env url w with
    | mk outcome wa =>
      rw [hres] at hs1 hs2 hs3 hs4
      simp only at hs1 hs2 hs3 hs4
      cases outcome with
      | none =>
        obtain ⟨w1, e1, e2, e3, e4⟩ := ih wa hrest
        refine ⟨w1, ?_, ?_, ?_, ?_⟩
        · simp only [processLoop, hres, e1]
        · rw [e2, hs3]; simp
        · rw [e3, hs4, List.filterMap_cons, ← hs1]
        · rw [e4, hs2, List.filterMap_cons, ← hs1]
      | some result =>
        obtain ⟨wb, s1, s2, s3, s4⟩ := saveToObsidian_effect env result.markdown result.metadata
          vaultPath folderName templateContent outputPath wa hdest htemplate hmkdir
          (hwrite url (List.mem_cons_self _ _) result hs1.symm)
        obtain ⟨w1, e1, e2, e3, e4⟩ := ih wb hrest
        refine ⟨w1, ?_, ?_, ?_, ?_⟩
        · simp only [processLoop, hres, s1, e1]
        · rw [e2, s3, hs3]; simp
        · rw [e3, s4, hs4, List.filterMap_cons, ← hs1]
          simp [filePathOf]
        · rw [e4, s2, hs2, List.filterMap_cons, ← hs1]
          simp [filePathOf]

/-- The update from the article leaves a non-empty title as it is. -/
theorem updateFromArticle_title (article : Article) (metadata : Metadata)
    (h : metadata.title ≠ "") : (updateFromArticle article metadata).title = metadata.title := by
  unfold updateFromArticle
  by_cases hb : (truthy article.byline && !truthy metadata.author) = true
  · rw [if_pos hb]
    have ht : (!(metadata.title != "")) = false := by simpa using h
    simp [ht]
  · rw [if_neg hb]
    have ht : (!(metadata.title != "")) = false := by simpa using h
    simp [ht]

theorem extractMetadata_title (env : Env) (document : Document) (url : String) :
    (extractMetadata env document url).title ≠ "" ∧
    (extractMetadata env document url).title =
      if document.title != "" then document.title else "Untitled Page" := by
  refine ⟨?_, rfl⟩
  by_cases h : document.title = ""
  · simp [extractMetadata, h]
  · simp [extractMetadata, h]

/-! ## Properties of `createFilename` -/

/-- C1: for every title, `createFilename title` is a non-empty stem followed by
`.md`; the stem holds none of the ten invalid characters, no white space and
no two consecutive hyphens; the empty title gives `untitled.md` and `A/B:C`
gives `A-B-C.md`. -/
theorem createFilename_stem_safe (title : String) :
    (∃ stem : String, createFilename title = stem ++ ".md" ∧ stem ≠ "" ∧
      (∀ c ∈ stem.data, isInvalidFilenameChar c = false ∧ isJsWhitespace c = false) ∧
      ¬ ("--".data <:+: stem.data)) ∧
    createFilename "" = "untitled.md" ∧ createFilename "A/B:C" = "A-B-C.md" := by
  refine ⟨⟨⟨finalName title.data⟩, rfl, ?_, ?_, ?_⟩, by decide, by decide⟩
  · intro h
    exact finalName_ne_nil title.data (congrArg String.data h)
  · intro c hc
    rcases finalName_cases title.data with ⟨h, _⟩ | ⟨h, _⟩
    · rw [h, sanitized_eq_replaced] at hc
      exact replaced_chars hc
    · rw [h] at hc
      revert c
      decide
  · rcases finalName_cases title.data with ⟨h, _⟩ | ⟨h, _⟩
    · show ¬ (_ <:+: finalName title.data)
      rw [h]
      exact no_double_hyphen_of_chain (sanitized_chain _)
    · show ¬ (_ <:+: finalName title.data)
      rw [h]
      decide

/-! ## Properties of `applyTemplate` -/

theorem applyTemplate_supplied (env : Env) (content : String) (metadata : Metadata)
    {template : String} (hne : template ≠ "") :
    applyTemplate env content metadata (some template) =
      .ok (jsReplace "{{content}}" content
        (jsReplace "{{description}}" (orString metadata.description "")
          (jsReplace "{{date}}" metadata.date
            (jsReplace "{{author}}" (orString metadata.author "Unknown")
              (jsReplace "{{url}}" metadata.url
                (jsReplace "{{title}}" metadata.title template)))))) := by
  have htrue : truthy (some template) = true := by simp [truthy, hne]
  simp [applyTemplate, resolveTemplate, render, htrue, Except.map]

/-- C5, amended: for every non-empty template in which none of the five
placeholders other than `{{author}}` occurs, every content and every metadata
with an empty author, `applyTemplate` returns the template with each
`{{author}}` replaced by `Unknown` and the text between the occurrences
unchanged; a non-empty template without any of the six placeholders is
returned unchanged. -/
theorem applyTemplate_author_only (env : Env) (content : String) (metadata : Metadata)
    (template : String) (hne : template ≠ "") (hauthor : metadata.author = some "")
    (hother : ∀ p ∈ otherPlaceholders, ¬ p.data <:+: template.data) :
    (∃ segments : List (List Char),
      template.data = List.intercalate "{{author}}".data segments ∧
      (∀ x ∈ segments, ¬ "{{author}}".data <:+: x) ∧
      applyTemplate env content metadata (some template) =
        .ok ⟨List.intercalate "Unknown".data segments⟩) ∧
    (¬ "{{author}}".data <:+: template.data →
      applyTemplate env content metadata (some template) = .ok template) := by
  have h1 := jsReplace_absent "{{title}}" metadata.title template
    (hother _ (by simp [otherPlaceholders]))
  have h2 := jsReplace_absent "{{url}}" metadata.url template
    (hother _ (by simp [otherPlaceholders]))
  have hd : ¬ "{{date}}".data <:+: template.data := hother _ (by simp [otherPlaceholders])
  have hs : ¬ "{{description}}".data <:+: template.data :=
    hother _ (by simp [otherPlaceholders])
  have hc : ¬ "{{content}}".data <:+: template.data := hother _ (by simp [otherPlaceholders])
  have hpat : "{{author}}".data ≠ [] := by decide
  have hu : ∀ c ∈ 'U' :: "nknown".data, c ≠ '$' := by decide
  have hbrace : '{' ∉ 'U' :: "nknown".data := by decide
  have key := applyTemplate_supplied env content metadata hne
  rw [h1, h2, hauthor] at key
  have horS : orString (some "") "Unknown" = "Unknown" := by decide
  rw [horS] at key
  have hafter : ∀ (p : List Char), p.head? = some '{' → 'U' ∉ p →
      ¬ p <:+: template.data →
      ¬ p <:+: (jsReplace "{{author}}" "Unknown" template).data := by
    intro p hp ht hnot hin
    cases p with
    | nil => simp at hp
    | cons b t =>
      have hb : b = '{' := by simpa using hp
      subst hb
      exact hnot (infix_of_infix_replacePattern hpat hu hbrace ht _ template.data [] rfl hin)
  have hd' := hafter "{{date}}".data (by decide) (by decide) hd
  have hs' := hafter "{{description}}".data (by decide) (by decide) hs
  have hc' := hafter "{{content}}".data (by decide) (by decide) hc
  rw [jsReplace_absent "{{date}}" _ _ hd', jsReplace_absent "{{description}}" _ _ hs',
    jsReplace_absent "{{content}}" _ _ hc'] at key
  refine ⟨?_, fun ha => ?_⟩
  · obtain ⟨seg, tl, e1, e2, e3⟩ :=
      replacePattern_segments hpat hu _ template.data [] rfl
    refine ⟨seg :: tl, e1, e2, ?_⟩
    rw [key]
    unfold jsReplace
    exact congrArg (fun l => Except.ok (String.mk l)) e3
  · rw [key, jsReplace_absent _ _ _ ha]

/-- Witness of `applyTemplate_author_only`, on a template with one `{{author}}`
and an unknown placeholder. -/
theorem applyTemplate_author_only_witness :
    (∃ segments : List (List Char),
      "by {{author}}, {{foo}}".data = List.intercalate "{{author}}".data segments ∧
      (∀ x ∈ segments, ¬ "{{author}}".data <:+: x) ∧
      applyTemplate envNoFiles "body" sampleMetadata (some "by {{author}}, {{foo}}") =
        .ok ⟨List.intercalate "Unknown".data segments⟩) ∧
    (¬ "{{author}}".data <:+: "by {{author}}, {{foo}}".data →
      applyTemplate envNoFiles "body" sampleMetadata (some "by {{author}}, {{foo}}") =
        .ok "by {{author}}, {{foo}}") :=
  applyTemplate_author_only envNoFiles "body" sampleMetadata "by {{author}}, {{foo}}"
    (by decide) rfl (by decide)

/-- C5 as stated fails on the empty template, which holds none of the six
placeholders: it is falsy, so that the default template is rendered in its
place. -/
theorem applyTemplate_empty_template_not_unchanged :
    sampleMetadata.author = some "" ∧
    (∀ p ∈ "{{author}}" :: otherPlaceholders, ¬ p.data <:+: "".data) ∧
    applyTemplate envDefaultOnly "body" sampleMetadata (some "") = .ok "# T" ∧
    applyTemplate envDefaultOnly "body" sampleMetadata (some "") ≠ .ok "" := by
  decide

/-- C2: the replacement text is not taken literally.  With the template
`{{content}}`, the content `$$` is rendered as `$`, and the content `a$&b` as
`a{{content}}b`; a title that reads `{{content}}` is replaced by the content in
a later step. -/
theorem applyTemplate_not_literal :
    applyTemplate envNoFiles "$$" sampleMetadata (some "{{content}}") = .ok "$" ∧
    applyTemplate envNoFiles "a$&b" sampleMetadata (some "{{content}}") = .ok "a{{content}}b" ∧
    applyTemplate envNoFiles "body"
      ⟨"http://x", "{{content}}", some "", "2024-01-01", none⟩ (some "[{{title}}]") =
        .ok "[body]" := by
  decide

/-- C6: when no template content is supplied and the default template file
cannot be read, `getDefaultTemplate` throws `ReferenceError: DEFAULT_TEMPLATE is
not defined` and so does `applyTemplate`. -/
theorem applyTemplate_default_unreadable (env : Env) (content : String)
    (metadata : Metadata) (h : env.readFileSync (defaultTemplatePath env) = none) :
    getDefaultTemplate env = .error (.referenceError "DEFAULT_TEMPLATE") ∧
    applyTemplate env content metadata none = .error (.referenceError "DEFAULT_TEMPLATE") := by
  have hg : getDefaultTemplate env = .error (.referenceError "DEFAULT_TEMPLATE") := by
    simp [getDefaultTemplate, h]
  refine ⟨hg, ?_⟩
  simp [applyTemplate, resolveTemplate, truthy, hg, Except.map]

/-- Witness of `applyTemplate_default_unreadable`. -/
theorem applyTemplate_default_unreadable_witness :
    envNoFiles.readFileSync (defaultTemplatePath envNoFiles) = none ∧
    getDefaultTemplate envNoFiles = .error (.referenceError "DEFAULT_TEMPLATE") ∧
    applyTemplate envNoFiles "body" sampleMetadata none =
      .error (.referenceError "DEFAULT_TEMPLATE") :=
  ⟨rfl, applyTemplate_default_unreadable envNoFiles "body" sampleMetadata rfl⟩

/-- C4: the hyphens at the ends of the stem stay: `trim` strips white space
only, and none is left when it runs. -/
theorem createFilename_keeps_edge_hyphens :
    createFilename " a " = "-a-.md" ∧ createFilename "/intro" = "-intro.md" ∧
    createFilename "What?" = "What-.md" := by
  decide

/-! ## Properties of `processUrls` and `saveToObsidian` -/

/-- C3, amended: for every list of URLs and every outcome of the scrapes, when
no call of `saveToObsidian` throws (a destination is given, a template is in
use, and `mkdirSync` and `writeFileSync` succeed), `processUrls` completes; it
has fetched every URL in input order, and the pages saved are those of the
URLs whose scrape returned a result, in input order: the `Saved to:` lines and
the files written are those of that subsequence; the last line printed is the
one that reports completion. -/
theorem processUrls_attempts_every_url (env : Env) (urls : List String)
    (vaultPath : Option String) (folderName : String) (templatePath outputPath : Option String)
    (w : World) (template : String)
    (hdest : DestinationGiven vaultPath outputPath)
    (htemplate : templateOfRun env templatePath = some template)
    (hmkdir : env.mkdirError (destinationOf env vaultPath folderName outputPath) = none)
    (hwrite : ∀ url ∈ urls, ∀ r, scraped env url = some r →
      env.writeError (filePathOf env (destinationOf env vaultPath folderName outputPath) r)
        (render r.markdown r.metadata template) = none) :
    ∃ w1, processUrls env urls vaultPath folderName templatePath outputPath w = (.ok (), w1) ∧
      fetchedUrls w1.console = fetchedUrls w.console ++ urls ∧
      savedPaths w1.console =
        savedPaths w.console ++ (urls.filterMap (scraped env)).map
          (filePathOf env (destinationOf env vaultPath folderName outputPath)) ∧
      w1.files = (urls.filterMap (scraped env)).foldl
        (fun files r =>
          writeFile (filePathOf env (destinationOf env vaultPath folderName outputPath) r)
            (render r.markdown r.metadata template) files)
        w.files ∧
      w1.console.getLast? = some .savedClipping := by
  obtain ⟨l1, l2, l3, l4⟩ := loadTemplate_effect env templatePath w
  obtain ⟨w1, e1, e2, e3, e4⟩ := processLoop_effect env vaultPath folderName
    (loadTemplate env templatePath w).1 outputPath hdest (l1.trans htemplate) hmkdir urls
    (loadTemplate env templatePath w).2 hwrite
  refine ⟨w1.log .savedClipping, ?_, ?_, ?_, ?_, ?_⟩
  · simp only [processUrls, e1]
  · show fetchedUrls (_ ++ _) = _
    rw [fetchedUrls_append, e2, l3]
    simp [fetchedUrls]
  · show savedPaths (_ ++ _) = _
    rw [savedPaths_append, e3, l4]
    simp [savedPaths]
  · show w1.files = _
    rw [e4, l2]
  · simp [World.log]

/-- Witness of `processUrls_attempts_every_url`: three URLs, the second of
which cannot be fetched, with the template file `t.md` and the output
directory `out`. -/
theorem processUrls_attempts_every_url_witness :
    ∃ w1, processUrls envWithTemplate ["http://a", "http://x", "http://c"] none "Clippings"
        (some "t.md") (some "out") World.empty = (.ok (), w1) ∧
      fetchedUrls w1.console = fetchedUrls World.empty.console ++
        ["http://a", "http://x", "http://c"] ∧
      savedPaths w1.console = savedPaths World.empty.console ++
        (["http://a", "http://x", "http://c"].filterMap (scraped envWithTemplate)).map
          (filePathOf envWithTemplate
            (destinationOf envWithTemplate none "Clippings" (some "out"))) ∧
      w1.files = (["http://a", "http://x", "http://c"].filterMap (scraped envWithTemplate)).foldl
        (fun files r =>
          writeFile
            (filePathOf envWithTemplate
              (destinationOf envWithTemplate none "Clippings" (some "out")) r)
            (render r.markdown r.metadata "{{url}}: {{content}}") files)
        World.empty.files ∧
      w1.console.getLast? = some .savedClipping :=
  processUrls_attempts_every_url envWithTemplate ["http://a", "http://x", "http://c"] none
    "Clippings" (some "t.md") (some "out") World.empty "{{url}}: {{content}}"
    (Or.inl ⟨"out", rfl, by decide⟩) (by decide) rfl (fun _ _ _ _ => rfl)

/-- C3 as stated fails when a save throws: `saveToObsidian` is called outside
any `try` block, so that when `writeFileSync` throws on the file of the first
URL, `processUrls` ends with that exception, the second URL, whose scrape
would return a result, is never fetched, and completion is not reported. -/
theorem processUrls_aborts_on_failed_save :
    processUrls envReadOnly ["http://a", "http://c"] none "Clippings" (some "t.md")
        (some "out") World.empty =
      (.error (.systemError "EACCES"),
        ⟨[], ["out"], [.fetching "http://a", .createdDirectory "out"]⟩) ∧
    (scraped envReadOnly "http://c").isSome = true ∧
    fetchedUrls (processUrls envReadOnly ["http://a", "http://c"] none "Clippings"
      (some "t.md") (some "out") World.empty).2.console ≠ ["http://a", "http://c"] := by
  decide

/-- C7, amended: from an empty map of files, when no call of `saveToObsidian`
throws (a destination is given, a template is in use, and `mkdirSync` and
`writeFileSync` succeed) and the scraped pages get pairwise distinct paths,
`processUrls` leaves exactly one file per URL whose scrape succeeded, each
holding the text of the template in use rendered for its URL. -/
theorem processUrls_one_file_per_success (env : Env) (urls : List String)
    (vaultPath : Option String) (folderName : String) (templatePath outputPath : Option String)
    (template : String)
    (hdest : DestinationGiven vaultPath outputPath)
    (htemplate : templateOfRun env templatePath = some template)
    (hmkdir : env.mkdirError (destinationOf env vaultPath folderName outputPath) = none)
    (hwrite : ∀ url ∈ urls, ∀ r, scraped env url = some r →
      env.writeError (filePathOf env (destinationOf env vaultPath folderName outputPath) r)
        (render r.markdown r.metadata template) = none)
    (hdistinct : ((urls.filterMap (scraped env)).map
      (filePathOf env (destinationOf env vaultPath folderName outputPath))).Nodup) :
    ∃ w1, processUrls env urls vaultPath folderName templatePath outputPath World.empty =
        (.ok (), w1) ∧
      w1.files = (urls.filterMap (scraped env)).map
        (fun r => (filePathOf env (destinationOf env vaultPath folderName outputPath) r,
          render r.markdown r.metadata template)) ∧
      w1.files.length = (urls.filterMap (scraped env)).length ∧
      ∀ url ∈ urls, ∀ r, scraped env url = some r →
        readFile (filePathOf env (destinationOf env vaultPath folderName outputPath) r)
          w1.files = some (render r.markdown r.metadata template) := by
  obtain ⟨l1, l2, _, _⟩ := loadTemplate_effect env templatePath World.empty
  obtain ⟨w0, e0, _, _, e4⟩ := processLoop_effect env vaultPath folderName
    (loadTemplate env templatePath World.empty).1 outputPath hdest (l1.trans htemplate) hmkdir
    urls (loadTemplate env templatePath World.empty).2 hwrite
  rw [l2] at e4
  have e1 : processUrls env urls vaultPath folderName templatePath outputPath World.empty =
      (.ok (), w0.log .savedClipping) := by
    simp only [processUrls, e0]
  have e4 : (w0.log .savedClipping).files = (urls.filterMap (scraped env)).foldl
      (fun files r =>
        writeFile (filePathOf env (destinationOf env vaultPath folderName outputPath) r)
          (render r.markdown r.metadata template) files)
      World.empty.files := e4
  generalize w0.log .savedClipping = w1 at e1 e4
  have hfiles : w1.files = (urls.filterMap (scraped env)).map
      (fun r => (filePathOf env (destinationOf env vaultPath folderName outputPath) r,
        render r.markdown r.metadata template)) := by
    rw [e4, foldl_writeFile_distinct
      (filePathOf env (destinationOf env vaultPath folderName outputPath))
      (fun r => render r.markdown r.metadata template) _ _ hdistinct]
    · rfl
    · intro r _ h
      simp [World.empty] at h
  refine ⟨w1, e1, hfiles, by rw [hfiles, List.length_map], ?_⟩
  intro url hurl r hr
  apply readFile_of_mem_nodup
  · rw [hfiles, List.map_map]
    exact hdistinct
  · rw [hfiles]
    exact List.mem_map.mpr ⟨r, List.mem_filterMap.mpr ⟨url, hurl, hr⟩, rfl⟩

/-- Witness of `processUrls_one_file_per_success`: two pages with the titles
`T` and `C`, saved with the template file `t.md` into the folder `Clippings`
of the vault `vault`. -/
theorem processUrls_one_file_per_success_witness :
    ∃ w1, processUrls envWithTemplate ["http://a", "http://x", "http://c"] (some "vault")
        "Clippings" (some "t.md") none World.empty = (.ok (), w1) ∧
      w1.files = (["http://a", "http://x", "http://c"].filterMap (scraped envWithTemplate)).map
        (fun r =>
          (filePathOf envWithTemplate
            (destinationOf envWithTemplate (some "vault") "Clippings" none) r,
          render r.markdown r.metadata "{{url}}: {{content}}")) ∧
      w1.files.length =
        (["http://a", "http://x", "http://c"].filterMap (scraped envWithTemplate)).length ∧
      ∀ url ∈ ["http://a", "http://x", "http://c"], ∀ r, scraped envWithTemplate url = some r →
        readFile
          (filePathOf envWithTemplate
            (destinationOf envWithTemplate (some "vault") "Clippings" none) r)
          w1.files = some (render r.markdown r.metadata "{{url}}: {{content}}") :=
  processUrls_one_file_per_success envWithTemplate ["http://a", "http://x", "http://c"]
    (some "vault") "Clippings" (some "t.md") none "{{url}}: {{content}}"
    (Or.inr ⟨"vault", rfl⟩) (by decide) rfl (fun _ _ _ _ => rfl) (by decide)

/-- C7 as stated fails when two pages carry the same title: both URLs are
scraped and saved, the second save overwrites the first, and one file is
left for two successes. -/
theorem processUrls_same_title_one_file :
    processUrls envDefaultOnly ["http://a", "http://b"] none "Clippings" none (some "out")
        World.empty =
      (.ok (), ⟨[("out/T.md", "# T")], ["out"],
        [.fetching "http://a", .createdDirectory "out", .savedTo "out/T.md",
          .fetching "http://b", .savedTo "out/T.md", .savedClipping]⟩) ∧
    (["http://a", "http://b"].filterMap (scraped envDefaultOnly)).length = 2 := by
  decide

/-- C9, amended: when neither call throws (a destination is given, a template
is in use, and `mkdirSync` and `writeFileSync` succeed), two calls of
`saveToObsidian` with the same destination and titles that give the same file
name write the same path, the destination (`outputPath` when given, otherwise
`vaultPath` joined with `folderName`) joined with `createFilename` of the
title; after the second call that path holds the text of the second call, it
is the path of exactly one file, no file has been added by the second call,
and every other path holds what it held before. -/
theorem saveToObsidian_same_title_overwrites (env : Env) (markdown₁ markdown₂ : String)
    (metadata₁ metadata₂ : Metadata) (vaultPath : Option String) (folderName : String)
    (templateContent₁ templateContent₂ outputPath : Option String) (w : World)
    (template₁ template₂ : String)
    (hdest : DestinationGiven vaultPath outputPath)
    (h₁ : templateInUse env templateContent₁ = some template₁)
    (h₂ : templateInUse env templateContent₂ = some template₂)
    (hmkdir : env.mkdirError (destinationOf env vaultPath folderName outputPath) = none)
    (hwrite₁ : env.writeError
      (env.pathJoin (destinationOf env vaultPath folderName outputPath)
        (createFilename metadata₁.title))
      (render markdown₁ metadata₁ template₁) = none)
    (hwrite₂ : env.writeError
      (env.pathJoin (destinationOf env vaultPath folderName outputPath)
        (createFilename metadata₁.title))
      (render markdown₂ metadata₂ template₂) = none)
    (htitle : createFilename metadata₁.title = createFilename metadata₂.title)
    (hw : (w.files.map Prod.fst).Nodup) :
    ∃ w₁ w₂,
      saveToObsidian env markdown₁ metadata₁ vaultPath folderName templateContent₁ outputPath w =
        (.ok (env.pathJoin (destinationOf env vaultPath folderName outputPath)
          (createFilename metadata₁.title)), w₁) ∧
      saveToObsidian env markdown₂ metadata₂ vaultPath folderName templateContent₂ outputPath w₁ =
        (.ok (env.pathJoin (destinationOf env vaultPath folderName outputPath)
          (createFilename metadata₁.title)), w₂) ∧
      readFile (env.pathJoin (destinationOf env vaultPath folderName outputPath)
          (createFilename metadata₁.title)) w₂.files =
        some (render markdown₂ metadata₂ template₂) ∧
      (w₂.files.map Prod.fst).count
        (env.pathJoin (destinationOf env vaultPath folderName outputPath)
          (createFilename metadata₁.title)) = 1 ∧
      w₂.files.length = w₁.files.length ∧
      ∀ q, q ≠ env.pathJoin (destinationOf env vaultPath folderName outputPath)
          (createFilename metadata₁.title) →
        readFile q w₂.files = readFile q w.files := by
  obtain ⟨w₁, s1, f1, _, _⟩ := saveToObsidian_effect env markdown₁ metadata₁ vaultPath
    folderName templateContent₁ outputPath w hdest h₁ hmkdir hwrite₁
  rw [htitle] at hwrite₂
  obtain ⟨w₂, s2, f2, _, _⟩ := saveToObsidian_effect env markdown₂ metadata₂ vaultPath
    folderName templateContent₂ outputPath w₁ hdest h₂ hmkdir hwrite₂
  rw [← htitle] at s2 f2
  have hmem : env.pathJoin (destinationOf env vaultPath folderName outputPath)
      (createFilename metadata₁.title) ∈ w₁.files.map Prod.fst := by
    rw [f1]
    exact mem_keys_writeFile _ _ _
  refine ⟨w₁, w₂, s1, s2, ?_, ?_, ?_, ?_⟩
  · rw [f2]
    exact readFile_writeFile_same _ _ _
  · apply List.count_eq_one_of_mem
    · rw [f2, f1]
      exact nodup_keys_writeFile _ _ (nodup_keys_writeFile _ _ hw)
    · rw [f2]
      exact mem_keys_writeFile _ _ _
  · rw [f2]
    exact length_writeFile_of_mem _ hmem
  · intro q hq
    rw [f2, readFile_writeFile_other _ hq, f1, readFile_writeFile_other _ hq]

/-- Witness of `saveToObsidian_same_title_overwrites`: two saves with the title
`T` into the folder `Clippings` of the vault `vault`, the first with a
supplied template and the second with the default template file, in a world
that already holds another file. -/
theorem saveToObsidian_same_title_overwrites_witness :
    ∃ w₁ w₂,
      saveToObsidian envDefaultOnly "first" sampleMetadata (some "vault") "Clippings"
          (some "{{content}}") none ⟨[("vault/Clippings/other.md", "kept")], [], []⟩ =
        (.ok (envDefaultOnly.pathJoin
          (destinationOf envDefaultOnly (some "vault") "Clippings" none)
          (createFilename sampleMetadata.title)), w₁) ∧
      saveToObsidian envDefaultOnly "second" sampleMetadata (some "vault") "Clippings"
          none none w₁ =
        (.ok (envDefaultOnly.pathJoin
          (destinationOf envDefaultOnly (some "vault") "Clippings" none)
          (createFilename sampleMetadata.title)), w₂) ∧
      readFile (envDefaultOnly.pathJoin
          (destinationOf envDefaultOnly (some "vault") "Clippings" none)
          (createFilename sampleMetadata.title)) w₂.files =
        some (render "second" sampleMetadata "# {{title}}") ∧
      (w₂.files.map Prod.fst).count
        (envDefaultOnly.pathJoin
          (destinationOf envDefaultOnly (some "vault") "Clippings" none)
          (createFilename sampleMetadata.title)) = 1 ∧
      w₂.files.length = w₁.files.length ∧
      ∀ q, q ≠ envDefaultOnly.pathJoin
          (destinationOf envDefaultOnly (some "vault") "Clippings" none)
          (createFilename sampleMetadata.title) →
        readFile q w₂.files = readFile q [("vault/Clippings/other.md", "kept")] :=
  saveToObsidian_same_title_overwrites envDefaultOnly "first" "second" sampleMetadata
    sampleMetadata (some "vault") "Clippings" (some "{{content}}") none none
    ⟨[("vault/Clippings/other.md", "kept")], [], []⟩ "{{content}}" "# {{title}}"
    (Or.inr ⟨"vault", rfl⟩) (by decide) (by decide) rfl rfl rfl rfl (by decide)

/-- C9 as stated fails when the save throws: `writeFileSync` throws on
`out/T.md`, both calls of `saveToObsidian` end with that exception, and no
file is left at the path. -/
theorem saveToObsidian_failed_write_leaves_no_file :
    saveToObsidian envReadOnly "first" sampleMetadata none "Clippings" (some "{{content}}")
        (some "out") World.empty =
      (.error (.systemError "EACCES"), ⟨[], ["out"], [.createdDirectory "out"]⟩) ∧
    saveToObsidian envReadOnly "second" sampleMetadata none "Clippings" (some "{{content}}")
        (some "out") ⟨[], ["out"], [.createdDirectory "out"]⟩ =
      (.error (.systemError "EACCES"), ⟨[], ["out"], [.createdDirectory "out"]⟩) ∧
    readFile (envReadOnly.pathJoin "out" (createFilename sampleMetadata.title))
      (saveToObsidian envReadOnly "second" sampleMetadata none "Clippings" (some "{{content}}")
        (some "out") ⟨[], ["out"], [.createdDirectory "out"]⟩).2.files = none := by
  decide

/-! ## Properties of `scrapeUrl` -/

/-- C8: the title of the metadata that `scrapeUrl` returns is never empty; it
is the title of the page when that is not empty and `Untitled Page` otherwise,
whatever the title of the extracted article: the update of lines 168-170
never applies. -/
theorem scrapeUrl_title (env : Env) (url : String) (w : World) (page : Page)
    (article : Article) (hfetch : env.fetchPage url = some page)
    (harticle : page.article = some article) :
    ∃ result, (scrapeUrl env url w).1 = some result ∧ result.metadata.title ≠ "" ∧
      result.metadata.title =
        if page.document.title != "" then page.document.title else "Untitled Page" := by
  obtain ⟨document, parsed⟩ := page
  simp only at harticle
  subst harticle
  have hres : (scrapeUrl env url w).1 = some ⟨env.turndown article.content,
      updateFromArticle article (extractMetadata env document url)⟩ := by
    simp only [scrapeUrl, hfetch]
  obtain ⟨hne, heq⟩ := extractMetadata_title env document url
  refine ⟨_, hres, ?_, ?_⟩
  · show (updateFromArticle article (extractMetadata env document url)).title ≠ ""
    rw [updateFromArticle_title _ _ hne]
    exact hne
  · show (updateFromArticle article (extractMetadata env document url)).title = _
    rw [updateFromArticle_title _ _ hne]
    exact heq

/-- Witness of `scrapeUrl_title`, on a page without a title whose article has
the title `Hello`: the title returned is `Untitled Page`. -/
theorem scrapeUrl_title_witness :
    (envUntitled.fetchPage "http://u").bind (fun page => page.article.bind Article.title) =
      some "Hello" ∧
    (scrapeUrl envUntitled "http://u" World.empty).1.map (fun r => r.metadata.title) =
      some "Untitled Page" ∧
    ∃ result, (scrapeUrl envUntitled "http://u" World.empty).1 = some result ∧
      result.metadata.title ≠ "" ∧
      result.metadata.title =
        if (Document.mk "" none none none).title != "" then
          (Document.mk "" none none none).title
        else "Untitled Page" :=
  ⟨by decide, by decide,
    scrapeUrl_title envUntitled "http://u" World.empty
      ⟨⟨"", none, none, none⟩, some ⟨some "Hello", "<p>text</p>", none⟩⟩
      ⟨some "Hello", "<p>text</p>", none⟩ (by decide) rfl⟩

/-! ## Properties of `main` -/

/-- C10, amended: the check of the arguments accepts a command line if and
only if it has a URL source (`url` or `file`) and a destination (an output
directory or a vault, or both); every other command line is rejected before
any URL is processed: `main` exits with status 1, no file written and no URL
fetched. -/
theorem check_accepts_iff (env : Env) (argv : Argv) (w : World) :
    (check argv = .ok true ↔ acceptsSomeDestination argv = true) ∧
    (acceptsSomeDestination argv = false →
      ∃ message, main env argv w = (.failure 1, w.log (.validationFailed message)) ∧
        (main env argv w).2.files = w.files ∧
        fetchedUrls (main env argv w).2.console = fetchedUrls w.console) := by
  unfold acceptsSomeDestination
  cases ho : truthy argv.output <;> cases hv : truthy argv.vault <;>
    cases hu : argv.url.isSome <;> cases hf : truthy argv.file <;>
    simp [check, main, ho, hv, hu, hf, World.log, fetchedUrls_append, fetchedUrls]

/-- Witness of `check_accepts_iff`: a command line without destination. -/
theorem check_accepts_iff_witness :
    acceptsSomeDestination argvNoDestination = false ∧
    ∃ message, main envDefaultOnly argvNoDestination World.empty =
        (.failure 1, World.empty.log (.validationFailed message)) ∧
      (main envDefaultOnly argvNoDestination World.empty).2.files = World.empty.files ∧
      fetchedUrls (main envDefaultOnly argvNoDestination World.empty).2.console =
        fetchedUrls World.empty.console :=
  ⟨by decide, (check_accepts_iff envDefaultOnly argvNoDestination World.empty).2 (by decide)⟩

/-- C10 as stated fails on a command line that gives both an output directory
and a vault: it is accepted, and the URL is processed into the output
directory. -/
theorem check_accepts_both_destinations :
    acceptsExactlyOneDestination argvBoth = false ∧ check argvBoth = .ok true ∧
    main envDefaultOnly argvBoth World.empty =
      (.success, ⟨[("out/T.md", "# T")], ["out"],
        [.processing 1, .fetching "http://a", .createdDirectory "out", .savedTo "out/T.md",
          .savedClipping, .done]⟩) := by
  decide

end ObsidianScraper
